import Mathlib

/-!
Shallow embedding of the pattern-visualization rendering engine of the
phased-array beamforming viewer (Pattern3DViewer canvas renderers and the
ThreeDPatternRenderer surface-mesh builder), together with proofs about the
claims of the specification.

Numeric values are modelled over `ℚ` (the code computes with IEEE doubles on
small exact decimal literals; every quantity appearing in the claims is exact),
except for the trigonometric rotation step and the spherical-to-Cartesian
conversion, which are modelled over `ℝ`.
-/

namespace Beamvis

/-! ## Canvas constants (Pattern3DViewer: `<canvas width={800} height={600}>`) -/

def canvasW : ℚ := 800
def canvasH : ℚ := 600

/-! ## Zoom controls (`handleZoomIn` / `handleZoomOut` / `handleResetView`)

`handleZoomIn`:  `setZoomLevel(prev => Math.min(prev + 0.2, 3.0))`
`handleZoomOut`: `setZoomLevel(prev => Math.max(prev - 0.2, 0.5))`
`handleResetView`: `setZoomLevel(1.0)`.
The initial state is `useState(1.0)`. -/

inductive ZoomOp where
  | zoomIn
  | zoomOut
  | reset
deriving DecidableEq

def stepZoom (z : ℚ) : ZoomOp → ℚ
  | .zoomIn => min (z + 2/10) 3
  | .zoomOut => max (z - 2/10) (5/10)
  | .reset => 1

def initialZoom : ℚ := 1

def zoomAfter (ops : List ZoomOp) : ℚ := ops.foldl stepZoom initialZoom

/-! ## Drag rotation (`handleMouseMove`)

`setRotation(prev => (prev + deltaX * 0.5) % 360)` where
`deltaX = currentX - dragStart.x`.  JavaScript `%` is the *truncated*
remainder: `a % b = a - b * trunc(a / b)`, which has the sign of `a`. -/

def ratTrunc (q : ℚ) : ℤ := if 0 ≤ q then ⌊q⌋ else ⌈q⌉

def jsMod (a b : ℚ) : ℚ := a - b * (ratTrunc (a / b) : ℚ)

structure DragState where
  rotation : ℚ
  dragging : Bool
  dragStartX : ℚ
deriving DecidableEq

def handleMouseMove (s : DragState) (currentX : ℚ) : DragState :=
  if s.dragging then
    let deltaX := currentX - s.dragStartX
    { rotation := jsMod (s.rotation + deltaX * (5/10)) 360
      dragging := true
      dragStartX := currentX }
  else s

/-! ## Polar azimuth plot (`renderAzimuthPattern`)

`const mag = Math.max(magnitudes[idx], -40); const r = scaledRadius * (1 + mag / 40);`
with `scaledRadius = radius * zoom`, `radius = Math.min(w, h) / 2 - 80`. -/

def azimuthBaseRadius : ℚ := min canvasW canvasH / 2 - 80

def scaledRadius (zoom : ℚ) : ℚ := azimuthBaseRadius * zoom

def clampMag (m : ℚ) : ℚ := max m (-40)

def polarRadius (sr m : ℚ) : ℚ := sr * (1 + clampMag m / 40)

/-! ## Heatmap rasterization (`renderInterferencePattern`)

Margin 60; `pixelWidth = plotWidth / cols`, `pixelHeight = plotHeight / rows`;
cell colour `rgb(g,g,g)` with `g = Math.floor(value * 255)`; cell position
`x = margin + j * pixelWidth`, `y = canvas.height - margin - (i+1) * pixelHeight`. -/

def hmMargin : ℚ := 60

def hmPlotW : ℚ := canvasW - 2 * hmMargin

def hmPlotH : ℚ := canvasH - 2 * hmMargin

def pixelW (cols : ℕ) : ℚ := hmPlotW / cols

def pixelH (rows : ℕ) : ℚ := hmPlotH / rows

def grayValue (v : ℚ) : ℤ := ⌊v * 255⌋

def cellColor (v : ℚ) : ℤ × ℤ × ℤ := (grayValue v, grayValue v, grayValue v)

def cellPixelX (cols : ℕ) (j : ℕ) : ℚ := hmMargin + j * pixelW cols

def cellPixelY (rows : ℕ) (i : ℕ) : ℚ := canvasH - hmMargin - (i + 1) * pixelH rows

/-- One rasterized heatmap cell: canvas position and RGB fill colour. -/
structure HeatCell where
  x : ℚ
  y : ℚ
  rgb : ℤ × ℤ × ℤ
deriving DecidableEq

def heatCells (magnitude : List (List ℚ)) : List HeatCell :=
  let rows := magnitude.length
  let cols := (magnitude.getD 0 []).length
  (List.range rows).flatMap fun i =>
    (List.range cols).map fun j =>
      { x := cellPixelX cols j
        y := cellPixelY rows i
        rgb := cellColor ((magnitude.getD i []).getD j 0) }

/-! ## Array geometry projection (`renderArrayGeometry`)

Bounding box from `Math.min(...xs)` / `Math.max(...xs)` (the function returns
early on an empty element list); `rangeX = maxX - minX || 1` (JavaScript `||`
replaces a zero range by 1); `scale = Math.min(plotWidth/rangeX,
plotHeight/rangeY) * 0.8 * zoom` with margin 80; element drawn at
`(centerX + (ex - (minX+maxX)/2)·scale, centerY - (ey - (minY+maxY)/2)·scale)`,
the whole group rotated about the canvas center by `rotation` degrees. -/

structure Elem where
  x : ℚ
  y : ℚ
deriving DecidableEq

def listMin : List ℚ → ℚ
  | [] => 0
  | a :: r => r.foldl min a

def listMax : List ℚ → ℚ
  | [] => 0
  | a :: r => r.foldl max a

def gMinX (es : List Elem) : ℚ := listMin (es.map Elem.x)
def gMaxX (es : List Elem) : ℚ := listMax (es.map Elem.x)
def gMinY (es : List Elem) : ℚ := listMin (es.map Elem.y)
def gMaxY (es : List Elem) : ℚ := listMax (es.map Elem.y)

/-- JavaScript `hi - lo || 1`: a zero range falls back to 1. -/
def gRange (lo hi : ℚ) : ℚ := if hi - lo = 0 then 1 else hi - lo

def geoMargin : ℚ := 80
def geoPlotW : ℚ := canvasW - 2 * geoMargin
def geoPlotH : ℚ := canvasH - 2 * geoMargin

def geoScale (es : List Elem) (zoom : ℚ) : ℚ :=
  min (geoPlotW / gRange (gMinX es) (gMaxX es))
      (geoPlotH / gRange (gMinY es) (gMaxY es)) * (8/10) * zoom

/-- Unrotated canvas position of one element marker. -/
def projQ (es : List Elem) (zoom : ℚ) (e : Elem) : ℚ × ℚ :=
  (canvasW / 2 + (e.x - (gMinX es + gMaxX es) / 2) * geoScale es zoom,
   canvasH / 2 - (e.y - (gMinY es + gMaxY es) / 2) * geoScale es zoom)

/-- Canvas `translate(c); rotate(deg·π/180); translate(-c)` applied to a point:
rotation about the canvas center in screen coordinates. -/
noncomputable def rotAboutCenter (deg : ℝ) (p : ℝ × ℝ) : ℝ × ℝ :=
  let a := deg * Real.pi / 180
  ((canvasW : ℝ) / 2 + Real.cos a * (p.1 - (canvasW : ℝ) / 2)
      - Real.sin a * (p.2 - (canvasH : ℝ) / 2),
   (canvasH : ℝ) / 2 + Real.sin a * (p.1 - (canvasW : ℝ) / 2)
      + Real.cos a * (p.2 - (canvasH : ℝ) / 2))

/-- Final canvas position of one element marker, rotation included. -/
noncomputable def markerPos (es : List Elem) (zoom : ℚ) (deg : ℝ) (e : Elem) : ℝ × ℝ :=
  rotAboutCenter deg (((projQ es zoom e).1 : ℝ), ((projQ es zoom e).2 : ℝ))

/-! ## Azimuth polar plot points (`renderAzimuthPattern`) -/

structure AzPattern where
  angles : List ℚ
  magnitudes : List ℚ
  steering_angle : ℚ
deriving DecidableEq

noncomputable def azimuthPoints (ap : AzPattern) (zoom : ℚ) (deg : ℝ) : List (ℝ × ℝ) :=
  (List.range ap.angles.length).map fun idx =>
    let angleRad : ℝ := ((ap.angles.getD idx 0 : ℚ) - 90) * Real.pi / 180
    let r : ℚ := polarRadius (scaledRadius zoom) (ap.magnitudes.getD idx 0)
    rotAboutCenter deg
      ((canvasW : ℝ) / 2 + (r : ℝ) * Real.cos angleRad,
       (canvasH : ℝ) / 2 + (r : ℝ) * Real.sin angleRad)

/-! ## Interference heatmap overlay (`renderInterferencePattern`, element markers)

`elemX_wl = elem.x / (3e8 / 1e9)` — the wavelength divisor is hardcoded from
a 1 GHz frequency; the marker is drawn only when its canvas position lies in
`[margin, width - margin] × [margin, height - margin]`. -/

def wlDivisor : ℚ := 300000000 / 1000000000

structure IGrid where
  x_grid : List (List ℚ)
  y_grid : List (List ℚ)
  magnitude : List (List ℚ)
deriving DecidableEq

def gridRows (g : IGrid) : ℕ := g.magnitude.length
def gridCols (g : IGrid) : ℕ := (g.magnitude.getD 0 []).length

def xMinOf (g : IGrid) : ℚ := (g.x_grid.getD 0 []).getD 0 0
def xMaxOf (g : IGrid) : ℚ := (g.x_grid.getD 0 []).getD (gridCols g - 1) 0
def yMinOf (g : IGrid) : ℚ := (g.y_grid.getD 0 []).getD 0 0
def yMaxOf (g : IGrid) : ℚ := (g.y_grid.getD (gridRows g - 1) []).getD 0 0

def elemCanvasPos (g : IGrid) (e : Elem) : ℚ × ℚ :=
  let ex := e.x / wlDivisor
  let ey := e.y / wlDivisor
  (hmMargin + ((ex - xMinOf g) / (xMaxOf g - xMinOf g)) * hmPlotW,
   canvasH - hmMargin - ((ey - yMinOf g) / (yMaxOf g - yMinOf g)) * hmPlotH)

def inHeatmapBounds (p : ℚ × ℚ) : Bool :=
  decide (hmMargin ≤ p.1) && decide (p.1 ≤ canvasW - hmMargin) &&
  decide (hmMargin ≤ p.2) && decide (p.2 ≤ canvasH - hmMargin)

def overlayMarkers (g : IGrid) (es : List Elem) : List (ℚ × ℚ) :=
  es.flatMap fun e =>
    let p := elemCanvasPos g e
    if inHeatmapBounds p then [p] else []

/-- Observable output of `renderInterferencePattern`: the rasterized heatmap
cells and the overlaid element markers.  The `zoom` parameter mirrors the
source signature; the function body never reads it. -/
def renderInterference (g : IGrid) (geo : Option (List Elem)) (zoom : ℚ) :
    List HeatCell × List (ℚ × ℚ) :=
  (heatCells g.magnitude,
   match geo with
   | some es => overlayMarkers g es
   | none => [])

/-! ## 3D surface mesh (`createPatternSurface` in ThreeDPatternRenderer) -/

def phiStepsOf (phi : List (List ℚ)) : ℕ := phi.length
def thetaStepsOf (theta : List (List ℚ)) : ℕ := (theta.getD 0 []).length

noncomputable def sphToCart (thetaDeg phiDeg r : ℚ) : ℝ × ℝ × ℝ :=
  let t : ℝ := (thetaDeg : ℝ) * Real.pi / 180
  let p : ℝ := (phiDeg : ℝ) * Real.pi / 180
  ((r : ℝ) * Real.sin t * Real.cos p,
   (r : ℝ) * Real.sin t * Real.sin p,
   (r : ℝ) * Real.cos t)

noncomputable def vertsOf (theta phi mag : List (List ℚ)) : List (ℝ × ℝ × ℝ) :=
  (List.range (phiStepsOf phi)).flatMap fun i =>
    (List.range (thetaStepsOf theta)).map fun j =>
      sphToCart ((theta.getD i []).getD j 0) ((phi.getD i []).getD j 0)
        ((mag.getD i []).getD j 0)

def trianglesOf (phiSteps thetaSteps : ℕ) : List (ℕ × ℕ × ℕ) :=
  (List.range (phiSteps - 1)).flatMap fun i =>
    (List.range (thetaSteps - 1)).flatMap fun j =>
      let a := i * thetaSteps + j
      let b := a + thetaSteps
      let c := a + 1
      let d := b + 1
      [(a, b, c), (b, d, c)]

/-! ## Render dispatch and the render boundary (`Pattern3DViewer` effect,
`ThreeDPatternRenderer` effect)

The canvas effect wraps its draw calls in `try { ... } catch` and paints an
in-surface error message on failure; the 3D renderer's effect has no such
guard.  `createPatternSurface` destructures `theta`/`phi`/`magnitude` and
returns early only when a field is missing (`!theta` — an *empty array* is
truthy in JavaScript and passes the guard); it then evaluates
`theta[0].length`, which throws a `TypeError` when `theta` is the empty array.
In-range accesses of a well-shaped payload are modelled exactly; remaining
out-of-range accesses are modelled by default-0 lookups. -/

inductive ViewMode where
  | arrayGeometry
  | interferencePlot
  | azimuthPattern
  | threeD
deriving DecidableEq

structure Pattern3DData where
  theta : Option (List (List ℚ))
  phi : Option (List (List ℚ))
  magnitude : Option (List (List ℚ))
deriving DecidableEq

structure Payload where
  array_geometry : Option (List Elem)
  interference_pattern : Option IGrid
  azimuth_pattern : Option AzPattern
  pattern_3d : Option Pattern3DData

/-- Mesh production of `createPatternSurface`, including where it can throw. -/
noncomputable def createPatternSurfaceE (pd : Pattern3DData) :
    Except String (List (ℝ × ℝ × ℝ) × List (ℕ × ℕ × ℕ)) :=
  match pd.theta, pd.phi, pd.magnitude with
  | some th, some ph, some mg =>
      match th with
      | [] => .error "TypeError: theta[0] is undefined"
      | _ :: _ => .ok (vertsOf th ph mg, trianglesOf (phiStepsOf ph) (thetaStepsOf th))
  | _, _, _ => .ok ([], [])

/-- The 3D renderer's effect body: no try/catch around mesh construction. -/
noncomputable def threeDRendererEffect (pd : Pattern3DData) :
    Except String (List (ℝ × ℝ × ℝ) × List (ℕ × ℕ × ℕ)) :=
  createPatternSurfaceE pd

inductive Drawn where
  | skipped3D
  | content
  | errorMessage
deriving DecidableEq

/-- Body of the canvas effect's `try` block: 3D mode returns early, the other
modes run their draw call (abstracted as an `Except`-valued computation). -/
def canvasEffectBody (mode : ViewMode) (draw : ViewMode → Except String Unit) :
    Except String Drawn :=
  if mode = .threeD then .ok .skipped3D
  else (draw mode).map fun _ => .content

/-- The `try { ... } catch (err) { <paint error text> }` render boundary of the
canvas effect: a failing draw is converted into an in-surface error message. -/
def canvasRenderBoundary (mode : ViewMode) (draw : ViewMode → Except String Unit) :
    Drawn :=
  match canvasEffectBody mode draw with
  | .ok d => d
  | .error _ => .errorMessage

inductive AppRender where
  | canvas : Drawn → AppRender
  | scene : List (ℝ × ℝ × ℝ) × List (ℕ × ℕ × ℕ) → AppRender

/-- The whole render operation: in 3D mode with a 3D payload present, the JSX
mounts `ThreeDPatternRenderer` (whose effect is unguarded); every other path
goes through the canvas effect and its try/catch boundary. -/
noncomputable def renderApp (mode : ViewMode) (data : Payload)
    (draw : ViewMode → Except String Unit) : Except String AppRender :=
  match mode, data.pattern_3d with
  | .threeD, some pd => (threeDRendererEffect pd).map .scene
  | _, _ => .ok (.canvas (canvasRenderBoundary mode draw))

/-- Observable per-mode output of the `useEffect` dispatch in
`Pattern3DViewer` (lines routing the payload slice to the projector for the
active view): the interference branch receives `zoomLevel` but not `rotation`. -/
inductive RenderOutput where
  | geometryOut : List (ℝ × ℝ) → RenderOutput
  | interferenceOut : List HeatCell × List (ℚ × ℚ) → RenderOutput
  | azimuthOut : List (ℝ × ℝ) → RenderOutput
  | skipped3D : RenderOutput
  | noData : RenderOutput

noncomputable def dispatch (mode : ViewMode) (data : Payload) (zoom : ℚ) (rotation : ℝ) :
    RenderOutput :=
  match mode with
  | .threeD => .skipped3D
  | .arrayGeometry =>
      match data.array_geometry with
      | some es => .geometryOut (es.map (markerPos es zoom rotation))
      | none => .noData
  | .interferencePlot =>
      match data.interference_pattern with
      | some g => .interferenceOut (renderInterference g data.array_geometry zoom)
      | none => .noData
  | .azimuthPattern =>
      match data.azimuth_pattern with
      | some ap => .azimuthOut (azimuthPoints ap zoom rotation)
      | none => .noData

end Beamvis

namespace Beamvis

/-! # Theorems -/

/-! ## Properties of the JavaScript remainder -/

lemma jsMod_eq_sub (a : ℚ) : jsMod a 360 = a - 360 * (ratTrunc (a / 360) : ℚ) := rfl

lemma jsMod_bounds (a : ℚ) : -360 < jsMod a 360 ∧ jsMod a 360 < 360 := by
  rw [jsMod_eq_sub]
  unfold ratTrunc
  by_cases h : 0 ≤ a / 360
  · simp only [h, if_pos]
    have h1 : ((⌊a / 360⌋ : ℤ) : ℚ) ≤ a / 360 := Int.floor_le _
    have h2 : a / 360 < (⌊a / 360⌋ : ℤ) + 1 := Int.lt_floor_add_one _
    constructor <;> nlinarith [h1, h2]
  · simp only [h, if_neg, not_false_iff]
    have h1 : a / 360 ≤ ((⌈a / 360⌉ : ℤ) : ℚ) := Int.le_ceil _
    have h2 : ((⌈a / 360⌉ : ℤ) : ℚ) < a / 360 + 1 := Int.ceil_lt_add_one _
    push_neg at h
    constructor <;> nlinarith [h1, h2]

lemma jsMod_nonneg (a : ℚ) (ha : 0 ≤ a) : 0 ≤ jsMod a 360 := by
  rw [jsMod_eq_sub]
  unfold ratTrunc
  have h : 0 ≤ a / 360 := by positivity
  simp only [h, if_pos]
  have h1 : ((⌊a / 360⌋ : ℤ) : ℚ) ≤ a / 360 := Int.floor_le _
  nlinarith [h1]

/-- C8: the zoom level starts at 1.0, and every sequence of zoom-in (+0.2
clamped at 3.0), zoom-out (−0.2 clamped at 0.5) and reset (:= 1.0) operations
keeps `zoomLevel` inside `[0.5, 3.0]`. -/
theorem zoom_invariant :
    zoomAfter [] = 1 ∧ ∀ ops : List ZoomOp, 1/2 ≤ zoomAfter ops ∧ zoomAfter ops ≤ 3 := by
  have key : ∀ (ops : List ZoomOp) (z : ℚ), 1/2 ≤ z → z ≤ 3 →
      1/2 ≤ ops.foldl stepZoom z ∧ ops.foldl stepZoom z ≤ 3 := by
    intro ops
    induction ops with
    | nil => intro z h1 h2; exact ⟨h1, h2⟩
    | cons op rest ih =>
      intro z h1 h2
      refine ih (stepZoom z op) ?_ ?_
      · cases op <;> simp only [stepZoom] <;>
          [exact le_min (by linarith) (by norm_num);
           exact le_max_of_le_right (by norm_num);
           norm_num]
      · cases op <;> simp only [stepZoom] <;>
          [exact min_le_right _ _;
           exact max_le (by linarith) (by norm_num);
           norm_num]
  refine ⟨rfl, fun ops => key ops 1 (by norm_num) (by norm_num)⟩

/-- C2: in the polar azimuth plot the magnitude is clamped at −40 dB and mapped
to radius `r = scaledRadius * (1 + mag/40)`; hence `r ≥ 0` for every magnitude
when `scaledRadius ≥ 0`, and the magnitudes 0, −10, −20, −40 map to radii
`R`, `0.75·R`, `0.5·R`, `0`. -/
theorem polar_radius_spec (R : ℚ) (hR : 0 ≤ R) :
    (∀ m : ℚ, 0 ≤ polarRadius R m) ∧
    polarRadius R 0 = R ∧
    polarRadius R (-10) = (3/4) * R ∧
    polarRadius R (-20) = (1/2) * R ∧
    polarRadius R (-40) = 0 := by
  refine ⟨fun m => ?_, ?_, ?_, ?_, ?_⟩
  · have h1 : (-40 : ℚ) ≤ clampMag m := le_max_right _ _
    have h2 : (0 : ℚ) ≤ 1 + clampMag m / 40 := by linarith
    exact mul_nonneg hR h2
  all_goals
    simp only [polarRadius, clampMag]
    norm_num
    try ring

/-- C2 witness: concrete instance at `R = 220` (the scaled radius for the
800×600 canvas at zoom 1). -/
theorem polar_radius_spec_witness :
    (∀ m : ℚ, 0 ≤ polarRadius 220 m) ∧
    polarRadius 220 0 = 220 ∧
    polarRadius 220 (-10) = (3/4) * 220 ∧
    polarRadius 220 (-20) = (1/2) * 220 ∧
    polarRadius 220 (-40) = 0 :=
  polar_radius_spec 220 (by norm_num)

/-- C1 counterexample: starting from rotation 0 in the dragging state with drag
origin at x = 10, a single leftward pointer move to x = 0 produces rotation
`(0 + (−10)·0.5) % 360 = −5`, which is negative: the resulting rotation is not
wrapped into `[0, 360)`. -/
theorem drag_rotation_negative_counterexample :
    (handleMouseMove ⟨0, true, 10⟩ 0).rotation = -5 ∧
    ¬ (0 ≤ (handleMouseMove ⟨0, true, 10⟩ 0).rotation) := by
  have h : (handleMouseMove ⟨0, true, 10⟩ 0).rotation = -5 := by
    show jsMod ((0 : ℚ) + (0 - 10) * (5/10)) 360 = -5
    rw [jsMod_eq_sub]
    unfold ratTrunc
    norm_num
  exact ⟨h, by rw [h]; norm_num⟩

/-- C1 (amended): each `pointerMove` in the Dragging state updates the rotation
by 0.5 times the horizontal displacement and reduces it with the JavaScript
remainder `% 360`, which keeps it in the open interval `(−360, 360)` and equal
to the unreduced value minus an integer multiple of 360; the result is
guaranteed nonnegative only when the unreduced value `prev + 0.5·deltaX` is
nonnegative — a leftward drag from a small rotation can leave it negative. -/
theorem drag_rotation_step (s : DragState) (x : ℚ) (hd : s.dragging = true) :
    (handleMouseMove s x).rotation
        = jsMod (s.rotation + (x - s.dragStartX) * (5/10)) 360 ∧
    -360 < (handleMouseMove s x).rotation ∧
    (handleMouseMove s x).rotation < 360 ∧
    (∃ k : ℤ, s.rotation + (x - s.dragStartX) * (5/10)
        - (handleMouseMove s x).rotation = 360 * k) ∧
    (0 ≤ s.rotation + (x - s.dragStartX) * (5/10) →
        0 ≤ (handleMouseMove s x).rotation) := by
  have hrot : (handleMouseMove s x).rotation
      = jsMod (s.rotation + (x - s.dragStartX) * (5/10)) 360 := by
    unfold handleMouseMove
    rw [hd]
    simp
  refine ⟨hrot, ?_, ?_, ?_, ?_⟩
  · rw [hrot]; exact (jsMod_bounds _).1
  · rw [hrot]; exact (jsMod_bounds _).2
  · rw [hrot, jsMod_eq_sub]
    exact ⟨ratTrunc ((s.rotation + (x - s.dragStartX) * (5/10)) / 360), by ring⟩
  · intro h0
    rw [hrot]
    exact jsMod_nonneg _ h0

/-- C1 witness: the amended drag step instantiated at rotation 40, drag origin
0, pointer moved rightward to 10 (all hypotheses discharged concretely). -/
theorem drag_rotation_step_witness :
    (handleMouseMove ⟨40, true, 0⟩ 10).rotation
        = jsMod ((40 : ℚ) + ((10 : ℚ) - 0) * (5/10)) 360 ∧
    -360 < (handleMouseMove ⟨40, true, 0⟩ 10).rotation ∧
    (handleMouseMove ⟨40, true, 0⟩ 10).rotation < 360 ∧
    (∃ k : ℤ, (40 : ℚ) + ((10 : ℚ) - 0) * (5/10)
        - (handleMouseMove ⟨40, true, 0⟩ 10).rotation = 360 * k) ∧
    (0 ≤ (40 : ℚ) + ((10 : ℚ) - 0) * (5/10) →
        0 ≤ (handleMouseMove ⟨40, true, 0⟩ 10).rotation) :=
  drag_rotation_step ⟨40, true, 0⟩ 10 rfl

/-- C4: every heatmap cell value is rasterized as the replicated grayscale
triple `floor(v·255)`; value 1 gives white `(255,255,255)`, value 0 gives black
`(0,0,0)`, and the gray channel is monotone non-decreasing in the value. -/
theorem heatmap_grayscale_spec (v w : ℚ) (hvw : v ≤ w) :
    cellColor 1 = (255, 255, 255) ∧
    cellColor 0 = (0, 0, 0) ∧
    cellColor v = (grayValue v, grayValue v, grayValue v) ∧
    grayValue v ≤ grayValue w := by
  refine ⟨?_, ?_, rfl, ?_⟩
  · show (⌊(1 : ℚ) * 255⌋, ⌊(1 : ℚ) * 255⌋, ⌊(1 : ℚ) * 255⌋) = ((255 : ℤ), 255, 255)
    norm_num
  · show (⌊(0 : ℚ) * 255⌋, ⌊(0 : ℚ) * 255⌋, ⌊(0 : ℚ) * 255⌋) = ((0 : ℤ), 0, 0)
    norm_num
  · exact Int.floor_le_floor (by nlinarith)

/-- C4 witness: the grayscale mapping instantiated at the concrete pair
`v = 1/4 ≤ w = 1`. -/
theorem heatmap_grayscale_spec_witness :
    cellColor 1 = (255, 255, 255) ∧
    cellColor 0 = (0, 0, 0) ∧
    cellColor (1/4) = (grayValue (1/4), grayValue (1/4), grayValue (1/4)) ∧
    grayValue (1/4) ≤ grayValue 1 :=
  heatmap_grayscale_spec (1/4) 1 (by norm_num)

lemma heatCells_mem (mag : List (List ℚ)) (i j : ℕ)
    (hi : i < mag.length) (hj : j < (mag.getD 0 []).length) :
    (⟨cellPixelX (mag.getD 0 []).length j, cellPixelY mag.length i,
      cellColor ((mag.getD i []).getD j 0)⟩ : HeatCell) ∈ heatCells mag := by
  unfold heatCells
  rw [List.mem_flatMap]
  exact ⟨i, List.mem_range.mpr hi,
    List.mem_map.mpr ⟨j, List.mem_range.mpr hj, rfl⟩⟩

/-- C5: the rasterizer draws grid row `i` at
`pixelY = height − margin − (i+1)·cellHeight`; row 0's cell bottom sits exactly
at the bottom edge of the plot area (`height − margin`), and the vertical
position is strictly decreasing in the row index, so the canvas row order is
the inverse of the array order. -/
theorem heatmap_row_spec (mag : List (List ℚ)) (i i' j : ℕ)
    (hi' : i' < mag.length) (hii : i < i')
    (hj : j < (mag.getD 0 []).length) :
    cellPixelY mag.length i = canvasH - hmMargin - (i + 1) * pixelH mag.length ∧
    cellPixelY mag.length 0 + pixelH mag.length = canvasH - hmMargin ∧
    cellPixelY mag.length i' < cellPixelY mag.length i ∧
    (⟨cellPixelX (mag.getD 0 []).length j, cellPixelY mag.length i,
      cellColor ((mag.getD i []).getD j 0)⟩ : HeatCell) ∈ heatCells mag := by
  have hrows : 0 < mag.length := lt_of_le_of_lt (Nat.zero_le i') hi'
  have hp : 0 < pixelH mag.length := by
    unfold pixelH hmPlotH canvasH hmMargin
    have : (0 : ℚ) < (mag.length : ℚ) := by exact_mod_cast hrows
    positivity
  refine ⟨rfl, ?_, ?_, heatCells_mem mag i j (lt_trans hii hi') hj⟩
  · unfold cellPixelY
    push_cast
    ring
  · unfold cellPixelY
    have hcast : (i : ℚ) < (i' : ℚ) := by exact_mod_cast hii
    nlinarith [hp, hcast]

/-- C5 witness: instantiated on the concrete 2×2 grid
`[[0, 1/2], [1, 1/4]]` with rows `i = 0 < i' = 1` and column `j = 1`. -/
theorem heatmap_row_spec_witness :
    cellPixelY ([[0, 1/2], [1, 1/4]] : List (List ℚ)).length 0
        = canvasH - hmMargin - (0 + 1) * pixelH ([[0, 1/2], [1, 1/4]] : List (List ℚ)).length ∧
    cellPixelY ([[0, 1/2], [1, 1/4]] : List (List ℚ)).length 0
        + pixelH ([[0, 1/2], [1, 1/4]] : List (List ℚ)).length = canvasH - hmMargin ∧
    cellPixelY ([[0, 1/2], [1, 1/4]] : List (List ℚ)).length 1
        < cellPixelY ([[0, 1/2], [1, 1/4]] : List (List ℚ)).length 0 ∧
    (⟨cellPixelX (([[0, 1/2], [1, 1/4]] : List (List ℚ)).getD 0 []).length 1,
      cellPixelY ([[0, 1/2], [1, 1/4]] : List (List ℚ)).length 0,
      cellColor ((([[0, 1/2], [1, 1/4]] : List (List ℚ)).getD 0 []).getD 1 0)⟩ : HeatCell)
        ∈ heatCells [[0, 1/2], [1, 1/4]] :=
  heatmap_row_spec [[0, 1/2], [1, 1/4]] 0 1 1 (by norm_num) (by norm_num) (by norm_num)

lemma flatMap_if_eq_filter_map {α β : Type} (f : α → β) (c : β → Bool) (l : List α) :
    (l.flatMap fun a => if c (f a) then [f a] else []) = (l.map f).filter c := by
  induction l with
  | nil => rfl
  | cons a r ih =>
    rw [List.flatMap_cons, List.map_cons, List.filter_cons, ih]
    by_cases h : c (f a) <;> simp [h]

/-- C9: the overlay converts each element position to grid units by dividing by
the wavelength of a hardcoded 1 GHz signal (`position / (3e8/1e9)`, i.e.
division by 3/10) regardless of the configured frequency, and exactly the
markers whose mapped canvas position lies inside the plotted bounds are drawn. -/
theorem overlay_marker_spec (g : IGrid) (es : List Elem) :
    wlDivisor = 3/10 ∧
    (∀ e : Elem,
      (elemCanvasPos g e).1
          = hmMargin + ((e.x / (3/10) - xMinOf g) / (xMaxOf g - xMinOf g)) * hmPlotW ∧
      (elemCanvasPos g e).2
          = canvasH - hmMargin
              - ((e.y / (3/10) - yMinOf g) / (yMaxOf g - yMinOf g)) * hmPlotH) ∧
    overlayMarkers g es = (es.map (elemCanvasPos g)).filter (fun p => inHeatmapBounds p) ∧
    (∀ p : ℚ × ℚ, p ∈ overlayMarkers g es ↔
      p ∈ es.map (elemCanvasPos g) ∧ inHeatmapBounds p = true) := by
  have hwl : wlDivisor = 3/10 := by norm_num [wlDivisor]
  have hfilter : overlayMarkers g es
      = (es.map (elemCanvasPos g)).filter (fun p => inHeatmapBounds p) :=
    flatMap_if_eq_filter_map (elemCanvasPos g) (fun p => inHeatmapBounds p) es
  refine ⟨hwl, fun e => ⟨?_, ?_⟩, hfilter, fun p => ?_⟩
  · unfold elemCanvasPos
    rw [hwl]
  · unfold elemCanvasPos
    rw [hwl]
  · rw [hfilter, List.mem_filter]

/-- C10: the interference-pattern renderer is independent of the view
transform — its `zoom` parameter is accepted but never read, and the dispatcher
passes it no rotation at all, so any two zoom/rotation settings produce
identical interference output for the same grid and geometry payload. -/
theorem interference_transform_independent :
    (∀ (g : IGrid) (geo : Option (List Elem)) (z1 z2 : ℚ),
      renderInterference g geo z1 = renderInterference g geo z2) ∧
    (∀ (data : Payload) (z1 z2 : ℚ) (r1 r2 : ℝ),
      dispatch .interferencePlot data z1 r1 = dispatch .interferencePlot data z2 r2) := by
  constructor
  · intro g geo z1 z2
    rfl
  · intro data z1 z2 r1 r2
    unfold dispatch
    cases data.interference_pattern <;> rfl

/-- C7 counterexample: in 3D view mode with a payload whose `theta`, `phi` and
`magnitude` fields are present but empty arrays (an empty array is truthy, so
the guard does not return early), `theta[0].length` raises a TypeError inside
`ThreeDPatternRenderer`'s effect, and no catch intercepts it: the exception
propagates out of the render operation. -/
theorem render_error_propagates_counterexample :
    renderApp .threeD ⟨none, none, none, some ⟨some [], some [], some []⟩⟩
        (fun _ => .ok ())
      = .error "TypeError: theta[0] is undefined" := rfl

/-- C7 (amended): for the three canvas view modes every draw-call exception is
caught at the `Pattern3DViewer` render boundary and converted into an
in-surface error message, so the render operation never propagates an
exception; in 3D mode, however, the mesh construction runs inside
`ThreeDPatternRenderer` with no surrounding try/catch, and an exception there
escapes the render operation. -/
theorem canvas_render_boundary_spec (mode : ViewMode) (data : Payload)
    (draw : ViewMode → Except String Unit) (hmode : mode ≠ .threeD) :
    renderApp mode data draw = .ok (.canvas (canvasRenderBoundary mode draw)) ∧
    (∀ msg, draw mode = .error msg → canvasRenderBoundary mode draw = .errorMessage) ∧
    (∀ u, draw mode = .ok u → canvasRenderBoundary mode draw = .content) := by
  refine ⟨?_, ?_, ?_⟩
  · obtain ⟨ag, ip, ap, p3⟩ := data
    cases mode with
    | threeD => exact absurd rfl hmode
    | arrayGeometry => cases p3 <;> rfl
    | interferencePlot => cases p3 <;> rfl
    | azimuthPattern => cases p3 <;> rfl
  · intro msg hmsg
    unfold canvasRenderBoundary canvasEffectBody
    rw [if_neg hmode, hmsg]
    rfl
  · intro u hu
    unfold canvasRenderBoundary canvasEffectBody
    rw [if_neg hmode, hu]
    rfl

/-- C7 witness: the amended boundary property instantiated in array-geometry
mode on the empty payload with a draw call that fails. -/
theorem canvas_render_boundary_spec_witness :
    renderApp .arrayGeometry ⟨none, none, none, none⟩ (fun _ => .error "draw failed")
        = .ok (.canvas (canvasRenderBoundary .arrayGeometry
            (fun _ => .error "draw failed"))) ∧
    (∀ msg, (fun _ : ViewMode => (.error "draw failed" : Except String Unit))
          .arrayGeometry = .error msg →
      canvasRenderBoundary .arrayGeometry (fun _ => .error "draw failed")
        = .errorMessage) ∧
    (∀ u, (fun _ : ViewMode => (.error "draw failed" : Except String Unit))
          .arrayGeometry = .ok u →
      canvasRenderBoundary .arrayGeometry (fun _ => .error "draw failed")
        = .content) :=
  canvas_render_boundary_spec .arrayGeometry ⟨none, none, none, none⟩
    (fun _ => .error "draw failed") (by simp)

/-! ## Bounding-box and scale lemmas for the geometry projector -/

lemma foldl_min_le (l : List ℚ) (a : ℚ) :
    l.foldl min a ≤ a ∧ ∀ x ∈ l, l.foldl min a ≤ x := by
  induction l generalizing a with
  | nil => exact ⟨le_refl a, by simp⟩
  | cons b r ih =>
    rw [List.foldl_cons]
    have h := ih (min a b)
    refine ⟨le_trans h.1 (min_le_left a b), ?_⟩
    intro x hx
    rcases List.mem_cons.mp hx with rfl | hxr
    · exact le_trans h.1 (min_le_right a x)
    · exact h.2 x hxr

lemma le_foldl_max (l : List ℚ) (a : ℚ) :
    a ≤ l.foldl max a ∧ ∀ x ∈ l, x ≤ l.foldl max a := by
  induction l generalizing a with
  | nil => exact ⟨le_refl a, by simp⟩
  | cons b r ih =>
    rw [List.foldl_cons]
    have h := ih (max a b)
    refine ⟨le_trans (le_max_left a b) h.1, ?_⟩
    intro x hx
    rcases List.mem_cons.mp hx with rfl | hxr
    · exact le_trans (le_max_right a x) h.1
    · exact h.2 x hxr

lemma listMin_le_mem (l : List ℚ) (x : ℚ) (hx : x ∈ l) : listMin l ≤ x := by
  cases l with
  | nil => cases hx
  | cons a r =>
    rcases List.mem_cons.mp hx with rfl | hxr
    · exact (foldl_min_le r x).1
    · exact (foldl_min_le r a).2 x hxr

lemma mem_le_listMax (l : List ℚ) (x : ℚ) (hx : x ∈ l) : x ≤ listMax l := by
  cases l with
  | nil => cases hx
  | cons a r =>
    rcases List.mem_cons.mp hx with rfl | hxr
    · exact (le_foldl_max r x).1
    · exact (le_foldl_max r a).2 x hxr

lemma gMinX_le (es : List Elem) (e : Elem) (he : e ∈ es) : gMinX es ≤ e.x :=
  listMin_le_mem _ _ (List.mem_map_of_mem Elem.x he)

lemma le_gMaxX (es : List Elem) (e : Elem) (he : e ∈ es) : e.x ≤ gMaxX es :=
  mem_le_listMax _ _ (List.mem_map_of_mem Elem.x he)

lemma gMinY_le (es : List Elem) (e : Elem) (he : e ∈ es) : gMinY es ≤ e.y :=
  listMin_le_mem _ _ (List.mem_map_of_mem Elem.y he)

lemma le_gMaxY (es : List Elem) (e : Elem) (he : e ∈ es) : e.y ≤ gMaxY es :=
  mem_le_listMax _ _ (List.mem_map_of_mem Elem.y he)

lemma gRange_pos (lo hi : ℚ) (h : lo ≤ hi) : 0 < gRange lo hi := by
  unfold gRange
  split
  · norm_num
  · rename_i hne
    rcases lt_or_eq_of_le (sub_nonneg.mpr h) with hlt | heq
    · exact hlt
    · exact absurd heq.symm hne

lemma sub_le_gRange (lo hi : ℚ) : hi - lo ≤ gRange lo hi := by
  unfold gRange
  split
  · rename_i h0
    rw [h0]
    norm_num
  · exact le_refl _

/-- With zero rotation the canvas rotation step is the identity. -/
lemma rotAboutCenter_zero (p : ℝ × ℝ) : rotAboutCenter 0 p = p := by
  unfold rotAboutCenter
  simp

/-- Per-axis reach of the projector: the offset from the canvas center is at
most `0.4 · plotSide · zoom` on each axis. -/
lemma projQ_offset_bounds (es : List Elem) (zoom : ℚ) (e : Elem)
    (he : e ∈ es) (hz0 : 0 ≤ zoom) :
    |(projQ es zoom e).1 - canvasW / 2| ≤ 256 * zoom ∧
    |(projQ es zoom e).2 - canvasH / 2| ≤ 176 * zoom := by
  have hx1 := gMinX_le es e he
  have hx2 := le_gMaxX es e he
  have hy1 := gMinY_le es e he
  have hy2 := le_gMaxY es e he
  set rx := gRange (gMinX es) (gMaxX es) with hrx_def
  set ry := gRange (gMinY es) (gMaxY es) with hry_def
  have hrx : 0 < rx := gRange_pos _ _ (le_trans hx1 hx2)
  have hry : 0 < ry := gRange_pos _ _ (le_trans hy1 hy2)
  have hrx2 : gMaxX es - gMinX es ≤ rx := sub_le_gRange _ _
  have hry2 : gMaxY es - gMinY es ≤ ry := sub_le_gRange _ _
  set s := geoScale es zoom with hs_def
  have hplot : geoPlotW = 640 ∧ geoPlotH = 440 := by
    constructor <;> norm_num [geoPlotW, geoPlotH, canvasW, canvasH, geoMargin]
  have hs0 : 0 ≤ s := by
    rw [hs_def]
    unfold geoScale
    have h1 : 0 < geoPlotW / rx := by rw [hplot.1]; positivity
    have h2 : 0 < geoPlotH / ry := by rw [hplot.2]; positivity
    have := lt_min h1 h2
    positivity
  have hsrx : s * rx ≤ 512 * zoom := by
    have hmin : min (geoPlotW / rx) (geoPlotH / ry) ≤ geoPlotW / rx := min_le_left _ _
    have h1 : s ≤ (geoPlotW / rx) * (8/10) * zoom := by
      rw [hs_def]
      unfold geoScale
      have := mul_le_mul_of_nonneg_right
        (mul_le_mul_of_nonneg_right hmin (by norm_num : (0:ℚ) ≤ 8/10)) hz0
      exact this
    have h2 : s * rx ≤ (geoPlotW / rx) * (8/10) * zoom * rx :=
      mul_le_mul_of_nonneg_right h1 hrx.le
    have h3 : (geoPlotW / rx) * (8/10) * zoom * rx = 512 * zoom := by
      rw [hplot.1]
      field_simp
      ring
    linarith [h2, h3.le]
  have hsry : s * ry ≤ 352 * zoom := by
    have hmin : min (geoPlotW / rx) (geoPlotH / ry) ≤ geoPlotH / ry := min_le_right _ _
    have h1 : s ≤ (geoPlotH / ry) * (8/10) * zoom := by
      rw [hs_def]
      unfold geoScale
      exact mul_le_mul_of_nonneg_right
        (mul_le_mul_of_nonneg_right hmin (by norm_num : (0:ℚ) ≤ 8/10)) hz0
    have h2 : s * ry ≤ (geoPlotH / ry) * (8/10) * zoom * ry :=
      mul_le_mul_of_nonneg_right h1 hry.le
    have h3 : (geoPlotH / ry) * (8/10) * zoom * ry = 352 * zoom := by
      rw [hplot.2]
      field_simp
      ring
    linarith [h2, h3.le]
  constructor
  · have hexpand : (projQ es zoom e).1 - canvasW / 2
        = (e.x - (gMinX es + gMaxX es) / 2) * s := by
      unfold projQ
      ring
    rw [hexpand, abs_le]
    have hdx1 : e.x - (gMinX es + gMaxX es) / 2 ≤ rx / 2 := by linarith
    have hdx2 : -(rx / 2) ≤ e.x - (gMinX es + gMaxX es) / 2 := by linarith
    constructor
    · nlinarith [mul_le_mul_of_nonneg_right hdx2 hs0]
    · nlinarith [mul_le_mul_of_nonneg_right hdx1 hs0]
  · have hexpand : (projQ es zoom e).2 - canvasH / 2
        = -((e.y - (gMinY es + gMaxY es) / 2) * s) := by
      unfold projQ
      ring
    rw [hexpand, abs_le]
    have hdy1 : e.y - (gMinY es + gMaxY es) / 2 ≤ ry / 2 := by linarith
    have hdy2 : -(ry / 2) ≤ e.y - (gMinY es + gMaxY es) / 2 := by linarith
    constructor
    · nlinarith [mul_le_mul_of_nonneg_right hdy1 hs0]
    · nlinarith [mul_le_mul_of_nonneg_right hdy2 hs0]

def cexElems : List Elem := [⟨-1, 0⟩, ⟨1, 0⟩]

/-- C3 counterexample: for the two-element array at x = ±1 (y = 0), at
zoom 3 ∈ [0.5, 3] and rotation 0 ∈ [0, 360), the projector places the marker of
element (1, 0) at canvas x = 1168, outside the 800-pixel-wide surface. -/
theorem geometry_out_of_bounds_counterexample :
    (1/2 : ℚ) ≤ 3 ∧ (3 : ℚ) ≤ 3 ∧
    (markerPos cexElems 3 0 ⟨1, 0⟩).1 = 1168 ∧
    ¬ ((markerPos cexElems 3 0 ⟨1, 0⟩).1 ≤ 800) := by
  have hq : projQ cexElems 3 ⟨1, 0⟩ = (1168, 300) := by
    unfold projQ geoScale gRange gMinX gMaxX gMinY gMaxY listMin listMax cexElems
    norm_num [geoPlotW, geoPlotH, geoMargin, canvasW, canvasH]
  have hm : (markerPos cexElems 3 0 ⟨1, 0⟩).1 = 1168 := by
    unfold markerPos
    rw [rotAboutCenter_zero, hq]
    norm_num
  exact ⟨by norm_num, by norm_num, hm, by rw [hm]; norm_num⟩

/-- C3 (amended): every marker stays within the surface bounds for every
rotation-free view with zoom ∈ [0.5, 25/16]; the claimed range of zooms up to
3.0 is too large — beyond zoom 25/16 a marker can leave the canvas (see the
zoom-3 counterexample). -/
theorem geometry_marker_bounds (es : List Elem) (zoom : ℚ) (e : Elem)
    (he : e ∈ es) (hz1 : 1/2 ≤ zoom) (hz2 : zoom ≤ 25/16) :
    0 ≤ (markerPos es zoom 0 e).1 ∧ (markerPos es zoom 0 e).1 ≤ 800 ∧
    0 ≤ (markerPos es zoom 0 e).2 ∧ (markerPos es zoom 0 e).2 ≤ 600 := by
  have hz0 : (0:ℚ) ≤ zoom := by linarith
  obtain ⟨hbx, hby⟩ := projQ_offset_bounds es zoom e he hz0
  rw [abs_le] at hbx hby
  have hWq : canvasW / 2 = (400 : ℚ) := by norm_num [canvasW]
  have hHq : canvasH / 2 = (300 : ℚ) := by norm_num [canvasH]
  rw [hWq] at hbx
  rw [hHq] at hby
  have hx_lo : (0:ℚ) ≤ (projQ es zoom e).1 := by nlinarith
  have hx_hi : (projQ es zoom e).1 ≤ 800 := by nlinarith
  have hy_lo : (0:ℚ) ≤ (projQ es zoom e).2 := by nlinarith
  have hy_hi : (projQ es zoom e).2 ≤ 600 := by nlinarith
  have hm : markerPos es zoom 0 e
      = (((projQ es zoom e).1 : ℝ), ((projQ es zoom e).2 : ℝ)) := by
    unfold markerPos
    exact rotAboutCenter_zero _
  rw [hm]
  dsimp only
  exact ⟨by exact_mod_cast hx_lo, by exact_mod_cast hx_hi,
    by exact_mod_cast hy_lo, by exact_mod_cast hy_hi⟩

/-- C3 witness: the amended bound instantiated for the two-element array at
x = ±1 at zoom 1, rotation 0, on the marker of element (1, 0). -/
theorem geometry_marker_bounds_witness :
    0 ≤ (markerPos cexElems 1 0 ⟨1, 0⟩).1 ∧ (markerPos cexElems 1 0 ⟨1, 0⟩).1 ≤ 800 ∧
    0 ≤ (markerPos cexElems 1 0 ⟨1, 0⟩).2 ∧ (markerPos cexElems 1 0 ⟨1, 0⟩).2 ≤ 600 :=
  geometry_marker_bounds cexElems 1 ⟨1, 0⟩ (by simp [cexElems]) (by norm_num) (by norm_num)

/-! ## Surface-mesh lemmas -/

lemma length_flatMap_const {α β : Type} (l : List α) (f : α → List β) (c : ℕ)
    (h : ∀ a ∈ l, (f a).length = c) : (l.flatMap f).length = l.length * c := by
  induction l with
  | nil => simp
  | cons a r ih =>
    rw [List.flatMap_cons, List.length_append, h a (List.mem_cons_self a r),
      ih (fun b hb => h b (List.mem_cons_of_mem a hb)), List.length_cons]
    ring

lemma sphToCart_norm_one (t p : ℚ) :
    (sphToCart t p 1).1 ^ 2 + (sphToCart t p 1).2.1 ^ 2 + (sphToCart t p 1).2.2 ^ 2 = 1 := by
  unfold sphToCart
  dsimp only
  have h1 := Real.sin_sq_add_cos_sq ((t : ℝ) * Real.pi / 180)
  have h2 := Real.sin_sq_add_cos_sq ((p : ℝ) * Real.pi / 180)
  push_cast
  linear_combination (Real.sin ((t : ℝ) * Real.pi / 180)) ^ 2 * h2 + h1

/-- C6: for every Pattern3D input the mesh builder produces
`phiSteps × thetaSteps` vertices and `2·(phiSteps−1)·(thetaSteps−1)` triangles,
each grid quad (i, j) contributing the index triples `(a, a+thetaSteps, a+1)`
and `(a+thetaSteps, a+thetaSteps+1, a+1)` with `a = i·thetaSteps + j`; and
when additionally the magnitude is 1 everywhere, every generated vertex
`(r·sinθ·cosφ, r·sinθ·sinφ, r·cosθ)` has Euclidean norm 1. -/
theorem surface_mesh_spec (theta phi mag : List (List ℚ)) :
    (vertsOf theta phi mag).length = phiStepsOf phi * thetaStepsOf theta ∧
    (trianglesOf (phiStepsOf phi) (thetaStepsOf theta)).length
        = 2 * (phiStepsOf phi - 1) * (thetaStepsOf theta - 1) ∧
    (∀ i j, i < phiStepsOf phi - 1 → j < thetaStepsOf theta - 1 →
      (i * thetaStepsOf theta + j,
        i * thetaStepsOf theta + j + thetaStepsOf theta,
        i * thetaStepsOf theta + j + 1)
          ∈ trianglesOf (phiStepsOf phi) (thetaStepsOf theta) ∧
      (i * thetaStepsOf theta + j + thetaStepsOf theta,
        i * thetaStepsOf theta + j + thetaStepsOf theta + 1,
        i * thetaStepsOf theta + j + 1)
          ∈ trianglesOf (phiStepsOf phi) (thetaStepsOf theta)) ∧
    ((∀ i, i < phiStepsOf phi → ∀ j, j < thetaStepsOf theta →
        (mag.getD i []).getD j 0 = 1) →
      ∀ v ∈ vertsOf theta phi mag, v.1 ^ 2 + v.2.1 ^ 2 + v.2.2 ^ 2 = 1) := by
  refine ⟨?_, ?_, ?_, ?_⟩
  · unfold vertsOf
    rw [length_flatMap_const _ _ (thetaStepsOf theta)
      (fun i _ => by rw [List.length_map, List.length_range])]
    rw [List.length_range]
  · unfold trianglesOf
    have hinner : ∀ i ∈ List.range (phiStepsOf phi - 1),
        ((List.range (thetaStepsOf theta - 1)).flatMap fun j =>
          let a := i * thetaStepsOf theta + j
          let b := a + thetaStepsOf theta
          let c := a + 1
          let d := b + 1
          [(a, b, c), (b, d, c)]).length = (thetaStepsOf theta - 1) * 2 := by
      intro i _
      rw [length_flatMap_const _
        (fun j => let a := i * thetaStepsOf theta + j
                  let b := a + thetaStepsOf theta
                  let c := a + 1
                  let d := b + 1
                  [(a, b, c), (b, d, c)]) 2 (fun j _ => rfl), List.length_range]
    rw [length_flatMap_const _ _ ((thetaStepsOf theta - 1) * 2) hinner,
      List.length_range]
    ring
  · intro i j hi hj
    constructor <;>
      (unfold trianglesOf
       rw [List.mem_flatMap]
       refine ⟨i, List.mem_range.mpr hi, ?_⟩
       rw [List.mem_flatMap]
       refine ⟨j, List.mem_range.mpr hj, ?_⟩
       simp)
  · intro hmag v hv
    unfold vertsOf at hv
    rw [List.mem_flatMap] at hv
    obtain ⟨i, hi, hv⟩ := hv
    rw [List.mem_map] at hv
    obtain ⟨j, hj, hv⟩ := hv
    rw [List.mem_range] at hi hj
    rw [hmag i hi j hj] at hv
    rw [← hv]
    exact sphToCart_norm_one _ _

/-- C6 witness: the mesh property instantiated on the concrete 2×2 pattern
with theta rows [0°, 90°], phi rows [0°, 180°] and magnitude 1 everywhere. -/
theorem surface_mesh_spec_witness :
    (vertsOf [[0, 90], [0, 90]] [[0, 0], [180, 180]] [[1, 1], [1, 1]]).length
        = phiStepsOf [[0, 0], [180, 180]] * thetaStepsOf [[0, 90], [0, 90]] ∧
    (trianglesOf (phiStepsOf [[0, 0], [180, 180]])
        (thetaStepsOf [[0, 90], [0, 90]])).length
        = 2 * (phiStepsOf [[0, 0], [180, 180]] - 1)
            * (thetaStepsOf [[0, 90], [0, 90]] - 1) ∧
    (∀ i j, i < phiStepsOf [[0, 0], [180, 180]] - 1 →
        j < thetaStepsOf [[0, 90], [0, 90]] - 1 →
      (i * thetaStepsOf [[0, 90], [0, 90]] + j,
        i * thetaStepsOf [[0, 90], [0, 90]] + j + thetaStepsOf [[0, 90], [0, 90]],
        i * thetaStepsOf [[0, 90], [0, 90]] + j + 1)
          ∈ trianglesOf (phiStepsOf [[0, 0], [180, 180]])
              (thetaStepsOf [[0, 90], [0, 90]]) ∧
      (i * thetaStepsOf [[0, 90], [0, 90]] + j + thetaStepsOf [[0, 90], [0, 90]],
        i * thetaStepsOf [[0, 90], [0, 90]] + j + thetaStepsOf [[0, 90], [0, 90]] + 1,
        i * thetaStepsOf [[0, 90], [0, 90]] + j + 1)
          ∈ trianglesOf (phiStepsOf [[0, 0], [180, 180]])
              (thetaStepsOf [[0, 90], [0, 90]])) ∧
    (∀ v ∈ vertsOf [[0, 90], [0, 90]] [[0, 0], [180, 180]] [[1, 1], [1, 1]],
      v.1 ^ 2 + v.2.1 ^ 2 + v.2.2 ^ 2 = 1) := by
  have h := surface_mesh_spec [[0, 90], [0, 90]] [[0, 0], [180, 180]] [[1, 1], [1, 1]]
  exact ⟨h.1, h.2.1, h.2.2.1, h.2.2.2 (by decide)⟩

end Beamvis
